import Mathlib

/-!
# Verification of the remux job pipeline (`video-processor.js`)

Shallow embedding of the video-processor service: the per-job state machine
`processVideo`, the discovery query of `processVideos`, the batch dispatcher,
and the leaf helpers `executeFFmpeg`, `getVideoDuration`, `checkR2File`,
`markAsFailed`.

Modelling conventions:
* JS numbers for durations are modelled as `Rat`, byte sizes and counters as
  `Int`.
* The `metadata` JSONB column is an association list where later bindings
  shadow earlier ones, exactly like the JS object spread
  `{...base, k1: v1, ...}` (modelled as `base ++ adds`); lookup takes the
  last binding.
* External effects (the Supabase writes, R2 HEAD/GET/PUT, the ffprobe call)
  are recorded as an event trace; the outcomes of the external world are an
  explicit `Env` oracle.  `exec` reporting an error object is identified with
  a non-zero exit status.  Timestamps (`new Date().toISOString()`) are the
  oracle's `now` string.
* `toFixed(2)` decimal formatting of the compression ratio is abstracted to
  the exact rational ratio (no claim depends on its formatting).
-/

namespace VideoProcessor

/-- A JSON-ish metadata value: string, integer, or rational number. -/
inductive MVal where
  | s (v : String)
  | i (v : Int)
  | q (v : Rat)
deriving DecidableEq, Repr

/-- The `metadata` bag: an association list, later bindings shadow earlier
ones (JS object spread semantics). -/
abbrev Metadata := List (String × MVal)

/-- Lookup in a metadata bag: the last binding for the key wins, as in a JS
object literal built by spreading. -/
def Metadata.get (m : Metadata) (k : String) : Option MVal :=
  m.reverse.lookup k

/-- A row of the `packing_records` table, restricted to the columns the
processor reads or writes. -/
structure Row where
  id : Nat
  status : Option String := none
  remux_status : Option String := none
  remux_attempts : Option Int := none
  video_url : String := ""
  video_duration : Option Rat := none
  video_size : Option Int := none
  remuxed_size : Option Int := none
  remuxed_at : Option String := none
  created_at : Int := 0
  metadata : Option Metadata := none
deriving DecidableEq, Repr

/-- The data Node's `exec` hands to its callback for the ffmpeg run: exit
status (the callback receives an error object exactly when it is non-zero),
captured stdout/stderr, and the error object's `message`. -/
structure ExecOutcome where
  exitCode : Int
  stdout : String
  stderr : String
  errMessage : String
deriving DecidableEq, Repr

/-- Oracle for everything outside the process: R2 responses, filesystem
stats, the ffprobe/ffmpeg subprocesses, and the wall clock. -/
structure Env where
  now : String
  headResult : Except String (Option Int)
  downloadResult : Except String Unit
  inputStat : Except String Int
  probeExec : Except String (Option Rat)
  ffmpeg : ExecOutcome
  outputStat : Except String Int
  uploadResult : Except String Unit
  elapsedMs : Int
deriving Repr

/-- One Supabase `.update({...}).eq('id', ...)` call: `none` means the column
is not part of the update; `metadata` carries the whole new bag (the JS code
overwrites the column with a freshly built object). -/
structure Update where
  remux_status : Option String := none
  remux_attempts : Option Int := none
  remuxed_at : Option String := none
  remuxed_size : Option Int := none
  metadata : Option Metadata := none
deriving DecidableEq, Repr

/-- Observable effects of one processing run, in program order. -/
inductive Ev where
  | dbWrite (u : Update)
  | headObject (key : String)
  | getObject (key : String)
  | probe
  | putObject (key : String)
deriving DecidableEq, Repr

/-- The database writes of a trace, in order. -/
def dbUpdates : List Ev → List Update
  | [] => []
  | Ev.dbWrite u :: es => u :: dbUpdates es
  | _ :: es => dbUpdates es

/-- Whether an event is object-store I/O (HEAD, GET or PUT). -/
def isStoreOp : Ev → Bool
  | Ev.headObject _ => true
  | Ev.getObject _ => true
  | Ev.putObject _ => true
  | _ => false

/-- The object-store operations of a trace, in order. -/
def storeOps (es : List Ev) : List Ev :=
  es.filter isStoreOp

/-- Column update: a value present in the update replaces the stored one. -/
def upd (newv old : Option α) : Option α :=
  match newv with
  | some v => some v
  | none => old

/-- Apply one partial update to a row. -/
def applyUpdate (r : Row) (u : Update) : Row :=
  { r with
    remux_status := upd u.remux_status r.remux_status
    remux_attempts := upd u.remux_attempts r.remux_attempts
    remuxed_at := upd u.remuxed_at r.remuxed_at
    remuxed_size := upd u.remuxed_size r.remuxed_size
    metadata := upd u.metadata r.metadata }

/-- Replay the database writes of a trace over a row. -/
def applyEvents (r : Row) : List Ev → Row
  | [] => r
  | Ev.dbWrite u :: es => applyEvents (applyUpdate r u) es
  | _ :: es => applyEvents r es

/-! ## Leaf helpers -/

/-- Whether the character list starts with the pattern. -/
def charsBegin : List Char → List Char → Bool
  | _, [] => true
  | [], _ :: _ => false
  | c :: cs, p :: ps => c == p && charsBegin cs ps

/-- Whether the pattern occurs anywhere in the character list. -/
def charsContain (pat : List Char) : List Char → Bool
  | [] => charsBegin [] pat
  | c :: rest => charsBegin (c :: rest) pat || charsContain pat rest

/-- `s.includes(pat)`: substring occurrence test. -/
def containsSubstr (s pat : String) : Bool :=
  charsContain pat.data s.data

/-- `s.substring(0, n)`: the first `n` characters of `s`. -/
def strTake (s : String) (n : Nat) : String :=
  String.mk (s.data.take n)

/-- `stderr || stdout || error.message` (empty strings are falsy). -/
def ffmpegErrorMessage (o : ExecOutcome) : String :=
  if o.stderr ≠ "" then o.stderr
  else if o.stdout ≠ "" then o.stdout
  else o.errMessage

/-- `executeFFmpeg` (video-processor.js:371-410): the callback receives an
error exactly when the exit status is non-zero; a real failure additionally
requires the `muxing overhead` success marker to be absent from stdout, and
rejects with a diagnostic excerpt truncated by `substring(0, 500)`. -/
def executeFFmpeg (o : ExecOutcome) : Except String Unit :=
  if o.exitCode ≠ 0 then
    if o.exitCode ≠ 0 ∧ containsSubstr o.stdout "muxing overhead" = false then
      Except.error ("FFmpeg failed: " ++ strTake (ffmpegErrorMessage o) 500)
    else
      Except.ok ()
  else
    Except.ok ()

/-- `getVideoDuration` (video-processor.js:291-301): ffprobe failure is
caught and yields 0; an unparsable stdout (`parseFloat` NaN, modelled as
`ok none`) also yields 0 via `|| 0`. -/
def getVideoDuration (probeResult : Except String (Option Rat)) : Rat :=
  match probeResult with
  | Except.error _ => 0
  | Except.ok none => 0
  | Except.ok (some d) => d

/-- `checkR2File` (video-processor.js:303-315): any HEAD error yields
`false`; otherwise the result is `ContentLength > 0` (a missing
`ContentLength` compares falsy). -/
def checkR2File (headResult : Except String (Option Int)) : Bool :=
  match headResult with
  | Except.error _ => false
  | Except.ok none => false
  | Except.ok (some len) => decide (0 < len)

/-! ## The per-job state machine -/

/-- Truthiness of `video.video_duration` in JS: `null`/`undefined`/`0` are
falsy. -/
def truthyDur : Option Rat → Bool
  | none => false
  | some d => d != 0

/-- The guard of the pre-check at video-processor.js:140:
`video.video_duration && video.video_duration <= 1`. -/
def preSkip : Option Rat → Bool
  | none => false
  | some x => x != 0 && decide (x ≤ 1)

/-- `(video.remux_attempts || 0) + 1` (video-processor.js:133). -/
def attemptNumberOf (video : Row) : Int :=
  video.remux_attempts.getD 0 + 1

/-- The pre-check skip write (video-processor.js:145-155). -/
def skipUpdatePre (metadata : Metadata) (now : String) : Update :=
  { remux_status := some "skipped"
    metadata := some (metadata ++
      [("skip_reason", MVal.s "duration_too_short"), ("skipped_at", MVal.s now)]) }

/-- The claim write (video-processor.js:161-171). -/
def claimUpdate (metadata : Metadata) (attemptNumber : Int) (now : String) : Update :=
  { remux_status := some "processing"
    remux_attempts := some attemptNumber
    metadata := some (metadata ++ [("last_remux_attempt", MVal.s now)]) }

/-- The post-probe skip write (video-processor.js:214-225). -/
def skipUpdateProbed (metadata : Metadata) (detected : Rat) (now : String) : Update :=
  { remux_status := some "skipped"
    metadata := some (metadata ++
      [("skip_reason", MVal.s "duration_too_short"),
       ("detected_duration", MVal.q detected), ("skipped_at", MVal.s now)]) }

/-- The ratio `((savedBytes / inputStats.size) * 100)`; the `toFixed(2)`
string formatting is abstracted to the exact rational value. -/
def compressionPct (savedBytes inputSize : Int) : Rat :=
  (savedBytes : Rat) / (inputSize : Rat) * 100

/-- The finalize write (video-processor.js:255-270). -/
def completedUpdate (metadata : Metadata) (env : Env)
    (inputSize outputSize savedBytes : Int) (actualDuration : Rat) : Update :=
  { remux_status := some "completed"
    remuxed_at := some env.now
    remuxed_size := some outputSize
    metadata := some (metadata ++
      [("remux_processing_time_ms", MVal.i env.elapsedMs),
       ("original_size", MVal.i inputSize),
       ("size_saved", MVal.i savedBytes),
       ("compression_ratio", MVal.q (compressionPct savedBytes inputSize)),
       ("detected_duration", MVal.q actualDuration)]) }

/-- `markAsFailed` (video-processor.js:412-425). -/
def markAsFailedUpdate (existingMetadata : Metadata) (reason : String) (now : String) : Update :=
  { remux_status := some "failed"
    remux_attempts := some 3
    metadata := some (existingMetadata ++
      [("remux_error", MVal.s reason), ("failed_at", MVal.s now)]) }

/-- The `catch` block of `processVideo` (video-processor.js:278-284): a
terminal failed write exactly when this was (at least) the third attempt. -/
def catchEvents (env : Env) (metadata : Metadata) (attemptNumber : Int) (msg : String) : List Ev :=
  if attemptNumber ≥ 3 then [Ev.dbWrite (markAsFailedUpdate metadata msg env.now)] else []

/-- Steps from the ffmpeg invocation onwards (video-processor.js:232-276):
remux, output stat, upload back to the same key, finalize write.  Any thrown
error routes to the catch block. -/
def remuxPhase (env : Env) (video : Row) (metadata : Metadata) (attemptNumber : Int)
    (inputSize : Int) (actualDuration : Rat) : List Ev :=
  match executeFFmpeg env.ffmpeg with
  | Except.error e => catchEvents env metadata attemptNumber e
  | Except.ok _ =>
    match env.outputStat with
    | Except.error e => catchEvents env metadata attemptNumber e
    | Except.ok outputSize =>
      Ev.putObject video.video_url ::
      match env.uploadResult with
      | Except.error e => catchEvents env metadata attemptNumber e
      | Except.ok _ =>
        [Ev.dbWrite (completedUpdate metadata env inputSize outputSize
          (inputSize - outputSize) actualDuration)]

/-- Duration resolution (video-processor.js:203-230): probe only when the
recorded duration is falsy; a probed duration ≤ 1 transitions to skipped. -/
def afterDownload (env : Env) (video : Row) (metadata : Metadata) (attemptNumber : Int)
    (inputSize : Int) : List Ev :=
  if truthyDur video.video_duration then
    remuxPhase env video metadata attemptNumber inputSize (video.video_duration.getD 0)
  else
    Ev.probe ::
    (if getVideoDuration env.probeExec ≤ 1 then
      [Ev.dbWrite (skipUpdateProbed metadata (getVideoDuration env.probeExec) env.now)]
    else
      remuxPhase env video metadata attemptNumber inputSize (getVideoDuration env.probeExec))

/-- The `try` block after the claim write (video-processor.js:176-288):
existence check with the retry-until-cap policy, download, stat, then the
duration/remux phases; thrown errors route to the catch block. -/
def afterClaim (env : Env) (video : Row) (metadata : Metadata) (attemptNumber : Int) : List Ev :=
  Ev.headObject video.video_url ::
  if checkR2File env.headResult = false then
    (if attemptNumber ≥ 3 then
      [Ev.dbWrite (markAsFailedUpdate metadata "File not found after 3 attempts" env.now)]
    else [])
  else
    Ev.getObject video.video_url ::
    match env.downloadResult with
    | Except.error e => catchEvents env metadata attemptNumber e
    | Except.ok _ =>
      match env.inputStat with
      | Except.error e => catchEvents env metadata attemptNumber e
      | Except.ok inputSize => afterDownload env video metadata attemptNumber inputSize

/-- `processVideo` (video-processor.js:131-289) as an event trace: the
pre-check short-circuit, else the claim write followed by the try block. -/
def processVideo (env : Env) (video : Row) : List Ev :=
  if preSkip video.video_duration then
    [Ev.dbWrite (skipUpdatePre (video.metadata.getD []) env.now)]
  else
    Ev.dbWrite (claimUpdate (video.metadata.getD []) (attemptNumberOf video) env.now) ::
    afterClaim env video (video.metadata.getD []) (attemptNumberOf video)

/-! ## Discovery query and batch dispatch -/

/-- The eligibility filter of the discovery query (video-processor.js:97-105):
`status = 'completed'`, `remux_status = 'pending'`, `remux_attempts < 3`,
`video_duration > 1` (SQL comparisons against NULL exclude the row). -/
def eligible (r : Row) : Bool :=
  (r.status == some "completed") &&
  (r.remux_status == some "pending") &&
  (match r.remux_attempts with
   | some a => decide (a < 3)
   | none => false) &&
  (match r.video_duration with
   | some d => decide (1 < d)
   | none => false)

/-- Insert a row into a list sorted by `created_at` (stable). -/
def insertByCreated (r : Row) : List Row → List Row
  | [] => [r]
  | x :: xs =>
    if x.created_at ≤ r.created_at then x :: insertByCreated r xs
    else r :: x :: xs

/-- Sort rows by `created_at` ascending (`order('created_at', ascending)`). -/
def sortByCreated : List Row → List Row
  | [] => []
  | x :: xs => insertByCreated x (sortByCreated xs)

/-- The discovery query over a database snapshot: filter, order oldest-first,
apply the page limit. -/
def fetchEligibleJobs (db : List Row) (limit : Nat) : List Row :=
  (sortByCreated (db.filter eligible)).take limit

/-- The batching loop of `processVideos` (video-processor.js:121-124):
`slice(i, i + batchSize)` groups in list order. -/
def chunks (n : Nat) : List α → List (List α)
  | [] => []
  | x :: xs => (x :: List.take (n - 1) xs) :: chunks n (List.drop (n - 1) xs)
termination_by l => l.length
decreasing_by
  simp only [List.length_drop, List.length_cons]
  omega

/-- `processVideos` (video-processor.js:91-129) as an event trace: a query
error or an empty result is a no-op cycle; otherwise the discovered list is
processed in groups of 3 (events of jobs in one group are recorded in list
order; their interleaving carries no claim). -/
def processVideos (qres : Except String (List Row)) (envOf : Row → Env) : List Ev :=
  match qres with
  | Except.error _ => []
  | Except.ok videos =>
    if videos.isEmpty then []
    else (chunks 3 videos).flatMap fun batch =>
      batch.flatMap fun v => processVideo (envOf v) v

/-- Dispatcher events: a job task being launched, and its settled outcome
(`true` = fulfilled, `false` = rejected), as `Promise.allSettled` reports. -/
inductive DEv (α : Type) where
  | start (j : α)
  | settle (j : α) (fulfilled : Bool)
deriving DecidableEq, Repr

/-- The dispatcher's schedule: for each group, all jobs are launched, then
all their settled outcomes are awaited before the next group starts.  The
outcome oracle `f` gives each job's own result; `allSettled` waits for every
member regardless of rejections. -/
def dispatchTrace (n : Nat) (f : α → Bool) (jobs : List α) : List (DEv α) :=
  (chunks n jobs).flatMap fun batch =>
    batch.map DEv.start ++ batch.map fun j => DEv.settle j (f j)

/-- Number of launch events. -/
def countStart (l : List (DEv α)) : Nat :=
  l.countP fun e => match e with | DEv.start _ => true | _ => false

/-- Number of settle events. -/
def countSettle (l : List (DEv α)) : Nat :=
  l.countP fun e => match e with | DEv.settle _ _ => true | _ => false

/-- The jobs launched, in launch order. -/
def startsOf : List (DEv α) → List α
  | [] => []
  | DEv.start j :: es => j :: startsOf es
  | _ :: es => startsOf es

/-- The settled outcomes, in settle order. -/
def settlesOf : List (DEv α) → List (α × Bool)
  | [] => []
  | DEv.settle j b :: es => (j, b) :: settlesOf es
  | _ :: es => settlesOf es

/-! ## Helper lemmas about metadata bags -/

lemma lookup_append_str (k : String) (l1 l2 : List (String × MVal)) :
    List.lookup k (l1 ++ l2) = (List.lookup k l1).orElse fun _ => List.lookup k l2 := by
  induction l1 with
  | nil => rfl
  | cons hd tl ih =>
    obtain ⟨k', v⟩ := hd
    by_cases h : k == k'
    · simp [List.lookup, h, Option.orElse]
    · simp only [Bool.not_eq_true] at h
      simp [List.lookup, h, ih]

lemma metaGet_append (m adds : Metadata) (k : String) :
    Metadata.get (m ++ adds) k = (Metadata.get adds k).orElse fun _ => Metadata.get m k := by
  unfold Metadata.get
  rw [List.reverse_append, lookup_append_str]

lemma metaGet_append_of_found (m adds : Metadata) (k : String) (v : MVal)
    (h : Metadata.get adds k = some v) : Metadata.get (m ++ adds) k = some v := by
  rw [metaGet_append, h]; rfl

lemma metaGet_append_of_none (m adds : Metadata) (k : String)
    (h : Metadata.get adds k = none) : Metadata.get (m ++ adds) k = Metadata.get m k := by
  rw [metaGet_append, h]; rfl

lemma lookup_eq_none_str (k : String) (l : List (String × MVal))
    (h : ∀ p ∈ l, p.1 ≠ k) : List.lookup k l = none := by
  induction l with
  | nil => rfl
  | cons hd tl ih =>
    obtain ⟨k', v⟩ := hd
    have hk : (k == k') = false :=
      beq_eq_false_iff_ne.mpr fun he => (h (k', v) (List.mem_cons_self _ _)) he.symm
    simp only [List.lookup, hk]
    exact ih fun p hp => h p (List.mem_cons_of_mem _ hp)

lemma metaGet_none_of_keys_ne (adds : Metadata) (k : String)
    (h : ∀ p ∈ adds, p.1 ≠ k) : Metadata.get adds k = none := by
  unfold Metadata.get
  exact lookup_eq_none_str k adds.reverse fun p hp => h p (List.mem_reverse.mp hp)

/-! ## Shape of the database writes of one run -/

lemma catchEvents_updates (env : Env) (m : Metadata) (n : Int) (msg : String) :
    dbUpdates (catchEvents env m n msg) = []
    ∨ dbUpdates (catchEvents env m n msg) = [markAsFailedUpdate m msg env.now] := by
  unfold catchEvents
  split
  · exact Or.inr rfl
  · exact Or.inl rfl

lemma remuxPhase_updates (env : Env) (video : Row) (m : Metadata) (n : Int)
    (iSz : Int) (d : Rat) :
    dbUpdates (remuxPhase env video m n iSz d) = []
    ∨ (∃ msg, dbUpdates (remuxPhase env video m n iSz d) = [markAsFailedUpdate m msg env.now])
    ∨ (∃ oSz, dbUpdates (remuxPhase env video m n iSz d) =
        [completedUpdate m env iSz oSz (iSz - oSz) d]) := by
  unfold remuxPhase
  split
  · rcases catchEvents_updates env m n _ with h | h
    · exact Or.inl h
    · exact Or.inr (Or.inl ⟨_, h⟩)
  · split
    · rcases catchEvents_updates env m n _ with h | h
      · exact Or.inl h
      · exact Or.inr (Or.inl ⟨_, h⟩)
    · simp only [dbUpdates]
      split
      · rcases catchEvents_updates env m n _ with h | h
        · exact Or.inl h
        · exact Or.inr (Or.inl ⟨_, h⟩)
      · exact Or.inr (Or.inr ⟨_, rfl⟩)

lemma afterClaim_updates (env : Env) (video : Row) (m : Metadata) (n : Int) :
    dbUpdates (afterClaim env video m n) = []
    ∨ (∃ msg, dbUpdates (afterClaim env video m n) = [markAsFailedUpdate m msg env.now])
    ∨ (∃ d, dbUpdates (afterClaim env video m n) = [skipUpdateProbed m d env.now])
    ∨ (∃ iSz oSz d, dbUpdates (afterClaim env video m n) =
        [completedUpdate m env iSz oSz (iSz - oSz) d]) := by
  unfold afterClaim
  simp only [dbUpdates]
  split
  · split
    · exact Or.inr (Or.inl ⟨_, rfl⟩)
    · exact Or.inl rfl
  · simp only [dbUpdates]
    split
    · rcases catchEvents_updates env m n _ with h | h
      · exact Or.inl h
      · exact Or.inr (Or.inl ⟨_, h⟩)
    · split
      · rcases catchEvents_updates env m n _ with h | h
        · exact Or.inl h
        · exact Or.inr (Or.inl ⟨_, h⟩)
      · unfold afterDownload
        split
        · rcases remuxPhase_updates env video m n _ _ with h | ⟨msg, h⟩ | ⟨oSz, h⟩
          · exact Or.inl h
          · exact Or.inr (Or.inl ⟨msg, h⟩)
          · exact Or.inr (Or.inr (Or.inr ⟨_, oSz, _, h⟩))
        · simp only [dbUpdates]
          split
          · exact Or.inr (Or.inr (Or.inl ⟨_, rfl⟩))
          · rcases remuxPhase_updates env video m n _ _ with h | ⟨msg, h⟩ | ⟨oSz, h⟩
            · exact Or.inl h
            · exact Or.inr (Or.inl ⟨msg, h⟩)
            · exact Or.inr (Or.inr (Or.inr ⟨_, oSz, _, h⟩))

lemma processVideo_updates (env : Env) (video : Row) :
    dbUpdates (processVideo env video) = [skipUpdatePre (video.metadata.getD []) env.now]
    ∨ ∃ rest,
        dbUpdates (processVideo env video) =
          claimUpdate (video.metadata.getD []) (attemptNumberOf video) env.now :: rest
        ∧ (rest = []
           ∨ (∃ msg, rest = [markAsFailedUpdate (video.metadata.getD []) msg env.now])
           ∨ (∃ d, rest = [skipUpdateProbed (video.metadata.getD []) d env.now])
           ∨ (∃ iSz oSz d, rest =
               [completedUpdate (video.metadata.getD []) env iSz oSz (iSz - oSz) d])) := by
  unfold processVideo
  split
  · exact Or.inl rfl
  · simp only [dbUpdates]
    exact Or.inr ⟨_, rfl, afterClaim_updates env video _ _⟩

/-! ## Chunking and dispatch lemmas -/

lemma chunks_flatten_fuel (n : Nat) :
    ∀ (fuel : Nat) (l : List α), l.length ≤ fuel → (chunks n l).flatten = l := by
  intro fuel
  induction fuel with
  | zero =>
    intro l hl
    have : l = [] := List.length_eq_zero.mp (Nat.le_zero.mp hl)
    subst this
    simp [chunks]
  | succ k ih =>
    intro l hl
    cases l with
    | nil => simp [chunks]
    | cons x xs =>
      rw [chunks, List.flatten_cons]
      rw [ih (List.drop (n - 1) xs) (by simp only [List.length_drop]; simp at hl; omega)]
      simp [List.take_append_drop]

lemma chunks_flatten (n : Nat) (l : List α) : (chunks n l).flatten = l :=
  chunks_flatten_fuel n l.length l Nat.le.refl

lemma chunks_length_le_fuel (n : Nat) (hn : 1 ≤ n) :
    ∀ (fuel : Nat) (l : List α), l.length ≤ fuel → ∀ c ∈ chunks n l, c.length ≤ n := by
  intro fuel
  induction fuel with
  | zero =>
    intro l hl c hc
    have : l = [] := List.length_eq_zero.mp (Nat.le_zero.mp hl)
    subst this
    simp [chunks] at hc
  | succ k ih =>
    intro l hl c hc
    cases l with
    | nil => simp [chunks] at hc
    | cons x xs =>
      rw [chunks] at hc
      rcases List.mem_cons.mp hc with rfl | hc
      · have := List.length_take_le (n - 1) xs
        simp only [List.length_cons]
        omega
      · exact ih (List.drop (n - 1) xs)
          (by simp only [List.length_drop]; simp at hl; omega) c hc

lemma chunks_length_le (n : Nat) (hn : 1 ≤ n) (l : List α) :
    ∀ c ∈ chunks n l, c.length ≤ n :=
  chunks_length_le_fuel n hn l.length l Nat.le.refl

lemma prefixCases {p a b : List γ} (h : p <+: a ++ b) :
    p <+: a ∨ ∃ q, p = a ++ q ∧ q <+: b := by
  induction a generalizing p with
  | nil => exact Or.inr ⟨p, rfl, h⟩
  | cons x a ih =>
    cases p with
    | nil => exact Or.inl ⟨x :: a, rfl⟩
    | cons y p =>
      rw [List.cons_append, List.cons_prefix_cons] at h
      obtain ⟨rfl, h⟩ := h
      rcases ih h with h | ⟨q, rfl, hq⟩
      · exact Or.inl (List.cons_prefix_cons.mpr ⟨rfl, h⟩)
      · exact Or.inr ⟨q, rfl, hq⟩

lemma countStart_append (a b : List (DEv α)) :
    countStart (a ++ b) = countStart a + countStart b :=
  List.countP_append _ a b

lemma countSettle_append (a b : List (DEv α)) :
    countSettle (a ++ b) = countSettle a + countSettle b :=
  List.countP_append _ a b

lemma countStart_map_start (c : List α) : countStart (c.map DEv.start) = c.length := by
  unfold countStart
  rw [List.countP_map]
  exact congrFun List.countP_true c

lemma countSettle_map_start (c : List α) : countSettle (c.map DEv.start) = 0 := by
  unfold countSettle
  rw [List.countP_map]
  exact congrFun List.countP_false c

lemma countStart_map_settle (f : α → Bool) (c : List α) :
    countStart (c.map fun j => DEv.settle j (f j)) = 0 := by
  unfold countStart
  rw [List.countP_map]
  exact congrFun List.countP_false c

lemma countSettle_map_settle (f : α → Bool) (c : List α) :
    countSettle (c.map fun j => DEv.settle j (f j)) = c.length := by
  unfold countSettle
  rw [List.countP_map]
  exact congrFun List.countP_true c

lemma countStart_of_settle_sub (f : α → Bool) (c : List α) (q : List (DEv α))
    (hq : q <+: c.map fun j => DEv.settle j (f j)) : countStart q = 0 := by
  unfold countStart
  rw [List.countP_eq_zero]
  intro e he
  have := hq.sublist.mem he
  simp only [List.mem_map] at this
  obtain ⟨j, _, rfl⟩ := this
  simp

lemma dispatch_inflight_aux (f : α → Bool) (n : Nat) (cs : List (List α))
    (hc : ∀ c ∈ cs, c.length ≤ n) :
    ∀ p, (p <+: cs.flatMap fun c =>
        c.map DEv.start ++ c.map fun j => DEv.settle j (f j)) →
      countStart p ≤ countSettle p + n := by
  induction cs with
  | nil =>
    intro p hp
    rw [List.flatMap_nil, List.prefix_nil] at hp
    subst hp
    simp [countStart, countSettle]
  | cons c cs ih =>
    intro p hp
    rw [List.flatMap_cons] at hp
    rcases prefixCases hp with hp | ⟨q, rfl, hq⟩
    · rcases prefixCases hp with hp | ⟨q, rfl, hq⟩
      · have h1 : countStart p ≤ p.length := List.countP_le_length _
        have h2 : p.length ≤ c.length := by
          have := hp.length_le
          simpa using this
        have h3 : c.length ≤ n := hc c (List.mem_cons_self _ _)
        omega
      · rw [countStart_append, countSettle_append, countStart_map_start,
          countStart_of_settle_sub f c q hq]
        have h3 : c.length ≤ n := hc c (List.mem_cons_self _ _)
        omega
    · rw [countStart_append, countSettle_append, countStart_append, countSettle_append,
        countStart_map_start, countSettle_map_start, countStart_map_settle,
        countSettle_map_settle]
      have := ih (fun c' hc' => hc c' (List.mem_cons_of_mem _ hc')) q hq
      omega

lemma startsOf_append (a b : List (DEv α)) :
    startsOf (a ++ b) = startsOf a ++ startsOf b := by
  induction a with
  | nil => rfl
  | cons e a ih => cases e <;> simp [startsOf, ih]

lemma settlesOf_append (a b : List (DEv α)) :
    settlesOf (a ++ b) = settlesOf a ++ settlesOf b := by
  induction a with
  | nil => rfl
  | cons e a ih => cases e <;> simp [settlesOf, ih]

lemma startsOf_map_start (c : List α) : startsOf (c.map DEv.start) = c := by
  induction c with
  | nil => rfl
  | cons x xs ih => simp [startsOf, ih]

lemma startsOf_map_settle (f : α → Bool) (c : List α) :
    startsOf (c.map fun j => DEv.settle j (f j)) = [] := by
  induction c with
  | nil => rfl
  | cons x xs ih => simp [startsOf, ih]

lemma settlesOf_map_start (c : List α) : settlesOf (c.map DEv.start) = [] := by
  induction c with
  | nil => rfl
  | cons x xs ih => simp [settlesOf, ih]

lemma settlesOf_map_settle (f : α → Bool) (c : List α) :
    settlesOf (c.map fun j => DEv.settle j (f j)) = c.map fun j => (j, f j) := by
  induction c with
  | nil => rfl
  | cons x xs ih => simp [settlesOf, ih]

lemma dispatchTrace_starts (n : Nat) (f : α → Bool) (jobs : List α) :
    startsOf (dispatchTrace n f jobs) = jobs := by
  unfold dispatchTrace
  have : ∀ cs : List (List α),
      startsOf (cs.flatMap fun c =>
        c.map DEv.start ++ c.map fun j => DEv.settle j (f j)) = cs.flatten := by
    intro cs
    induction cs with
    | nil => rfl
    | cons c cs ih =>
      rw [List.flatMap_cons, startsOf_append, startsOf_append, startsOf_map_start,
        startsOf_map_settle, List.flatten_cons, ih, List.append_nil]
  rw [this, chunks_flatten]

lemma dispatchTrace_settles (n : Nat) (f : α → Bool) (jobs : List α) :
    settlesOf (dispatchTrace n f jobs) = jobs.map fun j => (j, f j) := by
  unfold dispatchTrace
  have : ∀ cs : List (List α),
      settlesOf (cs.flatMap fun c =>
        c.map DEv.start ++ c.map fun j => DEv.settle j (f j)) =
        cs.flatten.map fun j => (j, f j) := by
    intro cs
    induction cs with
    | nil => rfl
    | cons c cs ih =>
      rw [List.flatMap_cons, settlesOf_append, settlesOf_append, settlesOf_map_start,
        settlesOf_map_settle, List.flatten_cons, ih, List.map_append, List.nil_append]
  rw [this, chunks_flatten]

/-! ## Sorting lemmas for the discovery query -/

lemma insertByCreated_perm (r : Row) (l : List Row) :
    (insertByCreated r l).Perm (r :: l) := by
  induction l with
  | nil => exact List.Perm.refl _
  | cons x xs ih =>
    unfold insertByCreated
    split
    · exact (ih.cons x).trans (List.Perm.swap r x xs)
    · exact List.Perm.refl _

lemma sortByCreated_perm (l : List Row) : (sortByCreated l).Perm l := by
  induction l with
  | nil => exact List.Perm.refl _
  | cons x xs ih =>
    unfold sortByCreated
    exact (insertByCreated_perm x (sortByCreated xs)).trans (ih.cons x)

lemma insertByCreated_sorted (r : Row) (l : List Row)
    (h : List.Pairwise (fun a b => a.created_at ≤ b.created_at) l) :
    List.Pairwise (fun a b => a.created_at ≤ b.created_at) (insertByCreated r l) := by
  induction l with
  | nil => simp [insertByCreated]
  | cons x xs ih =>
    rw [List.pairwise_cons] at h
    by_cases hxr : x.created_at ≤ r.created_at
    · rw [insertByCreated, if_pos hxr, List.pairwise_cons]
      refine ⟨?_, ih h.2⟩
      intro y hy
      have := (insertByCreated_perm r xs).mem_iff.mp hy
      rcases List.mem_cons.mp this with rfl | hy'
      · exact hxr
      · exact h.1 y hy'
    · rw [insertByCreated, if_neg hxr, List.pairwise_cons]
      constructor
      · intro y hy
        rcases List.mem_cons.mp hy with rfl | hy'
        · omega
        · exact le_trans (by omega) (h.1 y hy')
      · exact List.pairwise_cons.mpr h

lemma sortByCreated_sorted (l : List Row) :
    List.Pairwise (fun a b => a.created_at ≤ b.created_at) (sortByCreated l) := by
  induction l with
  | nil => exact List.Pairwise.nil
  | cons x xs ih => exact insertByCreated_sorted x (sortByCreated xs) ih

/-! ## Small path lemmas -/

lemma preSkip_false_of_not_truthy (d : Option Rat) (h : truthyDur d = false) :
    preSkip d = false := by
  cases d with
  | none => rfl
  | some x =>
    simp only [truthyDur] at h
    simp [preSkip, h]

lemma truthy_of_preSkip (d : Option Rat) (h : preSkip d = true) : truthyDur d = true := by
  cases d with
  | none => exact absurd h (by simp [preSkip])
  | some x =>
    simp only [preSkip, Bool.and_eq_true] at h
    simp [truthyDur, h.1]

lemma dbUpdates_append (a b : List Ev) : dbUpdates (a ++ b) = dbUpdates a ++ dbUpdates b := by
  induction a with
  | nil => rfl
  | cons e es ih => cases e <;> simp [dbUpdates, ih]

lemma applyEvents_append (r : Row) (a b : List Ev) :
    applyEvents r (a ++ b) = applyEvents (applyEvents r a) b := by
  induction a generalizing r with
  | nil => rfl
  | cons e es ih => cases e <;> simp [applyEvents, ih]

/-- The duration the run proceeds with after step 5 (recorded if truthy,
else the probed value). -/
def resolvedDuration (env : Env) (video : Row) : Rat :=
  if truthyDur video.video_duration then video.video_duration.getD 0
  else getVideoDuration env.probeExec

lemma afterDownload_remux (env : Env) (video : Row) (m : Metadata) (n : Int) (iSz : Int)
    (hd : 1 < resolvedDuration env video) :
    afterDownload env video m n iSz =
      (if truthyDur video.video_duration then [] else [Ev.probe]) ++
        remuxPhase env video m n iSz (resolvedDuration env video) := by
  unfold resolvedDuration at hd
  unfold afterDownload resolvedDuration
  by_cases ht : truthyDur video.video_duration = true
  · rw [if_pos ht] at hd
    simp [ht]
  · rw [Bool.not_eq_true] at ht
    rw [ht] at hd ⊢
    simp only [Bool.false_eq_true, if_false] at hd ⊢
    rw [if_neg (not_le.mpr hd), List.cons_append, List.nil_append]

/-! ## Claim theorems -/

/-- C6: `executeFFmpeg` rejects exactly when the exit status is non-zero and
the `muxing overhead` success marker is absent from standard output; the
rejection carries the `stderr || stdout || error.message` diagnostic
truncated to at most 500 characters, and in every other case (zero exit, or
non-zero exit with the marker present) it resolves. -/
theorem executeFFmpeg_failure_criterion (o : ExecOutcome) :
    (executeFFmpeg o =
        Except.error ("FFmpeg failed: " ++ strTake (ffmpegErrorMessage o) 500)
      ↔ (o.exitCode ≠ 0 ∧ containsSubstr o.stdout "muxing overhead" = false))
    ∧ ((o.exitCode = 0 ∨ containsSubstr o.stdout "muxing overhead" = true) →
        executeFFmpeg o = Except.ok ())
    ∧ (strTake (ffmpegErrorMessage o) 500).length ≤ 500 := by
  refine ⟨?_, ?_, List.length_take_le 500 (ffmpegErrorMessage o).data⟩
  · unfold executeFFmpeg
    by_cases h1 : o.exitCode = 0
    · simp [h1]
    · by_cases h2 : containsSubstr o.stdout "muxing overhead" = false
      · simp [h1, h2]
      · simp [h1, h2]
  · intro h
    unfold executeFFmpeg
    rcases h with h | h
    · simp [h]
    · by_cases h1 : o.exitCode = 0
      · simp [h1]
      · simp [h1, h]

/-- C9: the duration probe is total — an ffprobe failure yields 0 rather
than an exception — and the caller treats the 0 as too-short: a job whose
recorded duration is falsy, whose file exists and downloads, but whose probe
fails, ends the run `skipped`, with no `failed` write anywhere in the run. -/
theorem probe_failure_safe (env : Env) (video : Row) (e : String) (iSz : Int)
    (hp : env.probeExec = Except.error e)
    (ht : truthyDur video.video_duration = false)
    (hfound : checkR2File env.headResult = true)
    (hdl : env.downloadResult = Except.ok ())
    (hin : env.inputStat = Except.ok iSz) :
    getVideoDuration env.probeExec = 0
    ∧ (applyEvents video (processVideo env video)).remux_status = some "skipped"
    ∧ ∀ u ∈ dbUpdates (processVideo env video), u.remux_status ≠ some "failed" := by
  have hps := preSkip_false_of_not_truthy _ ht
  have hdur : getVideoDuration env.probeExec = 0 := by rw [hp]; rfl
  have htr : processVideo env video =
      [Ev.dbWrite (claimUpdate (video.metadata.getD []) (attemptNumberOf video) env.now),
       Ev.headObject video.video_url, Ev.getObject video.video_url, Ev.probe,
       Ev.dbWrite (skipUpdateProbed (video.metadata.getD [])
         (getVideoDuration env.probeExec) env.now)] := by
    unfold processVideo afterClaim afterDownload
    rw [if_neg (by simp [hps]), hfound, hdl, hin, ht]
    simp [hdur]
  rw [htr]
  refine ⟨hdur, rfl, ?_⟩
  intro u hu
  simp only [dbUpdates] at hu
  rcases List.mem_cons.mp hu with rfl | hu
  · simp [claimUpdate]
  · rcases List.mem_cons.mp hu with rfl | hu
    · simp [skipUpdateProbed]
    · simp at hu

/-- C10: the existence check returns true iff the HEAD request succeeds with
a content length strictly greater than 0; a zero-byte object is therefore
treated as absent, so the run performs no GET and no PUT, is terminally
failed (with the "not found" error text) on the third attempt, and is left
`processing` before that. -/
theorem checkR2File_content_length (hr : Except String (Option Int))
    (env : Env) (video : Row)
    (hzero : env.headResult = Except.ok (some 0))
    (hpre : preSkip video.video_duration = false) :
    (checkR2File hr = true ↔ ∃ len, hr = Except.ok (some len) ∧ 0 < len)
    ∧ (∀ k, Ev.getObject k ∉ processVideo env video)
    ∧ (∀ k, Ev.putObject k ∉ processVideo env video)
    ∧ (3 ≤ attemptNumberOf video →
        (applyEvents video (processVideo env video)).remux_status = some "failed"
        ∧ Metadata.get ((applyEvents video (processVideo env video)).metadata.getD [])
            "remux_error" = some (MVal.s "File not found after 3 attempts"))
    ∧ (attemptNumberOf video < 3 →
        (applyEvents video (processVideo env video)).remux_status = some "processing") := by
  have hchk : checkR2File env.headResult = false := by rw [hzero]; rfl
  refine ⟨?_, ?_, ?_, ?_, ?_⟩
  · cases hr with
    | error e => simp [checkR2File]
    | ok len =>
      cases len with
      | none => simp [checkR2File]
      | some l => simp [checkR2File]
  · intro k hk
    unfold processVideo afterClaim at hk
    rw [if_neg (by simp [hpre]), hchk] at hk
    simp only [Bool.false_eq_true, not_false_eq_true, if_true] at hk
    rcases List.mem_cons.mp hk with h | hk
    · cases h
    · rcases List.mem_cons.mp hk with h | hk
      · cases h
      · split at hk <;> simp at hk
  · intro k hk
    unfold processVideo afterClaim at hk
    rw [if_neg (by simp [hpre]), hchk] at hk
    simp only [Bool.false_eq_true, not_false_eq_true, if_true] at hk
    rcases List.mem_cons.mp hk with h | hk
    · cases h
    · rcases List.mem_cons.mp hk with h | hk
      · cases h
      · split at hk <;> simp at hk
  · intro hn
    have htr : processVideo env video =
        [Ev.dbWrite (claimUpdate (video.metadata.getD []) (attemptNumberOf video) env.now),
         Ev.headObject video.video_url,
         Ev.dbWrite (markAsFailedUpdate (video.metadata.getD [])
           "File not found after 3 attempts" env.now)] := by
      unfold processVideo afterClaim
      rw [if_neg (by simp [hpre]), hchk]
      simp [ge_iff_le, hn]
    rw [htr]
    refine ⟨rfl, ?_⟩
    simp only [applyEvents, applyUpdate, upd, markAsFailedUpdate, claimUpdate]
    exact metaGet_append_of_found _ _ _ _ rfl
  · intro hn
    have htr : processVideo env video =
        [Ev.dbWrite (claimUpdate (video.metadata.getD []) (attemptNumberOf video) env.now),
         Ev.headObject video.video_url] := by
      unfold processVideo afterClaim
      rw [if_neg (by simp [hpre]), hchk]
      simp [ge_iff_le, not_le.mpr hn]
    rw [htr]
    rfl

/-- C1: a job whose duration is known (truthy recorded value ≤ 1) or becomes
known by probing (falsy recorded value, file present, download and stat
succeed, probed value ≤ 1) ends the run with `remuxStatus = skipped`
(merging `skip_reason = duration_too_short`, plus `detected_duration` on the
probed path), no write of the run sets `completed`, and on the known-upfront
path the skip precedes the claim step: `remuxAttempts` is untouched and no
object-store I/O happens. -/
theorem shortDuration_skipped (env : Env) (video : Row) (iSz : Int)
    (h : preSkip video.video_duration = true
       ∨ (truthyDur video.video_duration = false
          ∧ checkR2File env.headResult = true
          ∧ env.downloadResult = Except.ok ()
          ∧ env.inputStat = Except.ok iSz
          ∧ getVideoDuration env.probeExec ≤ 1)) :
    (applyEvents video (processVideo env video)).remux_status = some "skipped"
    ∧ (∀ u ∈ dbUpdates (processVideo env video), u.remux_status ≠ some "completed")
    ∧ Metadata.get ((applyEvents video (processVideo env video)).metadata.getD [])
        "skip_reason" = some (MVal.s "duration_too_short")
    ∧ (preSkip video.video_duration = true →
        (applyEvents video (processVideo env video)).remux_attempts = video.remux_attempts
        ∧ storeOps (processVideo env video) = [])
    ∧ (truthyDur video.video_duration = false →
        Metadata.get ((applyEvents video (processVideo env video)).metadata.getD [])
          "detected_duration" = some (MVal.q (getVideoDuration env.probeExec))) := by
  rcases h with hps | ⟨ht, hfound, hdl, hin, hdur⟩
  · have htr : processVideo env video =
        [Ev.dbWrite (skipUpdatePre (video.metadata.getD []) env.now)] := by
      unfold processVideo
      rw [if_pos hps]
    rw [htr]
    refine ⟨rfl, ?_, ?_, fun _ => ⟨rfl, rfl⟩, ?_⟩
    · intro u hu
      simp only [dbUpdates] at hu
      rcases List.mem_cons.mp hu with rfl | hu
      · simp [skipUpdatePre]
      · simp at hu
    · simp only [applyEvents, applyUpdate, upd, skipUpdatePre]
      exact metaGet_append_of_found _ _ _ _ rfl
    · intro ht
      exact absurd (truthy_of_preSkip _ hps) (by simp [ht])
  · have hps := preSkip_false_of_not_truthy _ ht
    have htr : processVideo env video =
        [Ev.dbWrite (claimUpdate (video.metadata.getD []) (attemptNumberOf video) env.now),
         Ev.headObject video.video_url, Ev.getObject video.video_url, Ev.probe,
         Ev.dbWrite (skipUpdateProbed (video.metadata.getD [])
           (getVideoDuration env.probeExec) env.now)] := by
      unfold processVideo afterClaim afterDownload
      rw [if_neg (by simp [hps]), hfound, hdl, hin, ht]
      simp [hdur]
    rw [htr]
    refine ⟨rfl, ?_, ?_, ?_, fun _ => ?_⟩
    · intro u hu
      simp only [dbUpdates] at hu
      rcases List.mem_cons.mp hu with rfl | hu
      · simp [claimUpdate]
      · rcases List.mem_cons.mp hu with rfl | hu
        · simp [skipUpdateProbed]
        · simp at hu
    · simp only [applyEvents, applyUpdate, upd, skipUpdateProbed, claimUpdate]
      exact metaGet_append_of_found _ _ _ _ rfl
    · intro hps'
      rw [hps] at hps'
      cases hps'
    · simp only [applyEvents, applyUpdate, upd, skipUpdateProbed, claimUpdate]
      exact metaGet_append_of_found _ _ _ _ rfl

/-- C7: on a successful run whose remuxed output is larger than the input,
the output is still uploaded (a PUT to the exact key the job started with)
and the job is still finalized `completed` with `remuxedAt`,
`remuxedSizeBytes` set and `metadata.size_saved` equal to the negative
`inputSize - outputSize`; no branch rejects the job for growing. -/
theorem larger_output_still_completed (env : Env) (video : Row) (iSz oSz : Int)
    (hpre : preSkip video.video_duration = false)
    (hfound : checkR2File env.headResult = true)
    (hdl : env.downloadResult = Except.ok ())
    (hin : env.inputStat = Except.ok iSz)
    (hdur : 1 < resolvedDuration env video)
    (hff : executeFFmpeg env.ffmpeg = Except.ok ())
    (hout : env.outputStat = Except.ok oSz)
    (hup : env.uploadResult = Except.ok ())
    (hbig : iSz < oSz) :
    Ev.putObject video.video_url ∈ processVideo env video
    ∧ (applyEvents video (processVideo env video)).remux_status = some "completed"
    ∧ (applyEvents video (processVideo env video)).remuxed_at = some env.now
    ∧ (applyEvents video (processVideo env video)).remuxed_size = some oSz
    ∧ Metadata.get ((applyEvents video (processVideo env video)).metadata.getD [])
        "size_saved" = some (MVal.i (iSz - oSz))
    ∧ iSz - oSz < 0 := by
  have htr : processVideo env video =
      Ev.dbWrite (claimUpdate (video.metadata.getD []) (attemptNumberOf video) env.now) ::
      Ev.headObject video.video_url :: Ev.getObject video.video_url ::
      ((if truthyDur video.video_duration then [] else [Ev.probe]) ++
        (Ev.putObject video.video_url ::
         [Ev.dbWrite (completedUpdate (video.metadata.getD []) env iSz oSz (iSz - oSz)
           (resolvedDuration env video))])) := by
    unfold processVideo afterClaim
    rw [if_neg (by simp [hpre])]
    simp [hfound, hdl, hin, afterDownload_remux env video _ _ _ hdur,
      remuxPhase, hff, hout, hup]
  rw [htr]
  have happly : applyEvents video
      (Ev.dbWrite (claimUpdate (video.metadata.getD []) (attemptNumberOf video) env.now) ::
      Ev.headObject video.video_url :: Ev.getObject video.video_url ::
      ((if truthyDur video.video_duration then [] else [Ev.probe]) ++
        (Ev.putObject video.video_url ::
         [Ev.dbWrite (completedUpdate (video.metadata.getD []) env iSz oSz (iSz - oSz)
           (resolvedDuration env video))]))) =
      applyUpdate
        (applyUpdate video
          (claimUpdate (video.metadata.getD []) (attemptNumberOf video) env.now))
        (completedUpdate (video.metadata.getD []) env iSz oSz (iSz - oSz)
          (resolvedDuration env video)) := by
    simp only [applyEvents, applyEvents_append]
    split <;> rfl
  rw [happly]
  refine ⟨?_, rfl, rfl, rfl, ?_, by omega⟩
  · simp
  · simp only [applyUpdate, upd, completedUpdate, claimUpdate]
    exact metaGet_append_of_found _ _ _ _ rfl

lemma applyEvents_no_db (r : Row) (l : List Ev) (h : dbUpdates l = []) :
    applyEvents r l = r := by
  induction l generalizing r with
  | nil => rfl
  | cons e es ih =>
    cases e with
    | dbWrite u => simp [dbUpdates] at h
    | headObject k => exact ih r (by simpa [dbUpdates] using h)
    | getObject k => exact ih r (by simpa [dbUpdates] using h)
    | probe => exact ih r (by simpa [dbUpdates] using h)
    | putObject k => exact ih r (by simpa [dbUpdates] using h)

lemma conclude_catch (env : Env) (video : Row) (pre : List Ev) (msg : String)
    (hnd : dbUpdates pre = [])
    (hmsg : checkR2File env.headResult = false → containsSubstr msg "not found" = true)
    (htr : processVideo env video =
      Ev.dbWrite (claimUpdate (video.metadata.getD []) (attemptNumberOf video) env.now) ::
        (pre ++ catchEvents env (video.metadata.getD []) (attemptNumberOf video) msg)) :
    (3 ≤ attemptNumberOf video →
        (applyEvents video (processVideo env video)).remux_status = some "failed"
        ∧ (applyEvents video (processVideo env video)).remux_attempts = some 3
        ∧ ∃ m,
            Metadata.get ((applyEvents video (processVideo env video)).metadata.getD [])
              "remux_error" = some (MVal.s m)
            ∧ (checkR2File env.headResult = false → containsSubstr m "not found" = true))
    ∧ (attemptNumberOf video < 3 →
        dbUpdates (processVideo env video) =
          [claimUpdate (video.metadata.getD []) (attemptNumberOf video) env.now]
        ∧ (applyEvents video (processVideo env video)).remux_status = some "processing"
        ∧ ∀ u ∈ dbUpdates (processVideo env video), u.remux_status ≠ some "failed") := by
  constructor
  · intro hn
    have hc : catchEvents env (video.metadata.getD []) (attemptNumberOf video) msg =
        [Ev.dbWrite (markAsFailedUpdate (video.metadata.getD []) msg env.now)] := by
      unfold catchEvents
      rw [if_pos (by exact hn)]
    rw [htr, hc]
    have : applyEvents video
        (Ev.dbWrite (claimUpdate (video.metadata.getD []) (attemptNumberOf video) env.now) ::
          (pre ++ [Ev.dbWrite (markAsFailedUpdate (video.metadata.getD []) msg env.now)])) =
        applyUpdate
          (applyUpdate video
            (claimUpdate (video.metadata.getD []) (attemptNumberOf video) env.now))
          (markAsFailedUpdate (video.metadata.getD []) msg env.now) := by
      simp only [applyEvents, applyEvents_append]
      rw [applyEvents_no_db _ pre hnd]
    rw [this]
    refine ⟨rfl, rfl, msg, ?_, hmsg⟩
    simp only [applyUpdate, upd, markAsFailedUpdate, claimUpdate]
    exact metaGet_append_of_found _ _ _ _ rfl
  · intro hn
    have hc : catchEvents env (video.metadata.getD []) (attemptNumberOf video) msg = [] := by
      unfold catchEvents
      rw [if_neg (by omega)]
    rw [htr, hc, List.append_nil]
    refine ⟨?_, ?_, ?_⟩
    · simp only [dbUpdates, hnd]
    · simp only [applyEvents]
      rw [applyEvents_no_db _ pre hnd]
      rfl
    · intro u hu
      simp only [dbUpdates, hnd] at hu
      rcases List.mem_cons.mp hu with rfl | hu
      · simp [claimUpdate]
      · simp at hu

/-- C2: for a job claimed at attempt `n = currentAttempts + 1`, if the
object is absent, or the download, stat, remux or upload step throws, then
with `n ≥ 3` the job is written `failed` with `remuxAttempts = 3` and the
error text merged as `metadata.remux_error` (containing "not found" in the
absent-object case); with `n < 3` the claim write is the only write of the
run and the row is left at `processing` — never `failed` before the third
attempt. -/
theorem failure_retry_cap (env : Env) (video : Row)
    (hpre : preSkip video.video_duration = false)
    (hfail :
      checkR2File env.headResult = false
      ∨ (checkR2File env.headResult = true ∧ ∃ e, env.downloadResult = Except.error e)
      ∨ (checkR2File env.headResult = true ∧ env.downloadResult = Except.ok ()
          ∧ ∃ e, env.inputStat = Except.error e)
      ∨ (checkR2File env.headResult = true ∧ env.downloadResult = Except.ok ()
          ∧ (∃ sz, env.inputStat = Except.ok sz) ∧ 1 < resolvedDuration env video
          ∧ ∃ e, executeFFmpeg env.ffmpeg = Except.error e)
      ∨ (checkR2File env.headResult = true ∧ env.downloadResult = Except.ok ()
          ∧ (∃ sz, env.inputStat = Except.ok sz) ∧ 1 < resolvedDuration env video
          ∧ executeFFmpeg env.ffmpeg = Except.ok ()
          ∧ (∃ sz, env.outputStat = Except.ok sz)
          ∧ ∃ e, env.uploadResult = Except.error e)) :
    (3 ≤ attemptNumberOf video →
        (applyEvents video (processVideo env video)).remux_status = some "failed"
        ∧ (applyEvents video (processVideo env video)).remux_attempts = some 3
        ∧ ∃ m,
            Metadata.get ((applyEvents video (processVideo env video)).metadata.getD [])
              "remux_error" = some (MVal.s m)
            ∧ (checkR2File env.headResult = false → containsSubstr m "not found" = true))
    ∧ (attemptNumberOf video < 3 →
        dbUpdates (processVideo env video) =
          [claimUpdate (video.metadata.getD []) (attemptNumberOf video) env.now]
        ∧ (applyEvents video (processVideo env video)).remux_status = some "processing"
        ∧ ∀ u ∈ dbUpdates (processVideo env video), u.remux_status ≠ some "failed") := by
  rcases hfail with hchk
    | ⟨hfound, e, hde⟩
    | ⟨hfound, hdl, e, hie⟩
    | ⟨hfound, hdl, ⟨iSz, hin⟩, hrd, e, hfe⟩
    | ⟨hfound, hdl, ⟨iSz, hin⟩, hrd, hff, ⟨oSz, hout⟩, e, hue⟩
  · refine conclude_catch env video [Ev.headObject video.video_url]
      "File not found after 3 attempts" rfl (fun _ => by decide) ?_
    unfold processVideo afterClaim catchEvents
    rw [if_neg (by simp [hpre]), hchk]
    simp
  · refine conclude_catch env video
      [Ev.headObject video.video_url, Ev.getObject video.video_url] e rfl
      (fun hc => by rw [hfound] at hc; cases hc) ?_
    unfold processVideo afterClaim
    rw [if_neg (by simp [hpre])]
    simp [hfound, hde]
  · refine conclude_catch env video
      [Ev.headObject video.video_url, Ev.getObject video.video_url] e rfl
      (fun hc => by rw [hfound] at hc; cases hc) ?_
    unfold processVideo afterClaim
    rw [if_neg (by simp [hpre])]
    simp [hfound, hdl, hie]
  · refine conclude_catch env video
      (Ev.headObject video.video_url :: Ev.getObject video.video_url ::
        (if truthyDur video.video_duration then [] else [Ev.probe])) e
      (by split <;> rfl)
      (fun hc => by rw [hfound] at hc; cases hc) ?_
    unfold processVideo afterClaim
    rw [if_neg (by simp [hpre])]
    simp [hfound, hdl, hin, afterDownload_remux env video _ _ _ hrd, remuxPhase, hfe]
  · refine conclude_catch env video
      (Ev.headObject video.video_url :: Ev.getObject video.video_url ::
        ((if truthyDur video.video_duration then [] else [Ev.probe]) ++
          [Ev.putObject video.video_url])) e
      (by split <;> rfl)
      (fun hc => by rw [hfound] at hc; cases hc) ?_
    unfold processVideo afterClaim
    rw [if_neg (by simp [hpre])]
    simp [hfound, hdl, hin, afterDownload_remux env video _ _ _ hrd, remuxPhase,
      hff, hout, hue]

lemma metaGet_extend (m0 adds : Metadata) (k : String)
    (h : ∀ p ∈ adds, p.1 ≠ k) :
    Metadata.get (m0 ++ adds) k = Metadata.get m0 k :=
  metaGet_append_of_none m0 adds k (metaGet_none_of_keys_ne adds k h)

lemma extend_witness (m0 adds m : Metadata) (hm : m = m0 ++ adds) :
    ∃ a, m = m0 ++ a ∧ ∀ k, (∀ p ∈ a, p.1 ≠ k) →
      Metadata.get m k = Metadata.get m0 k := by
  subst hm
  exact ⟨adds, rfl, fun k hk => metaGet_extend m0 adds k hk⟩

/-- The stored `remux_attempts` value (SQL NULL read as 0) after each
successive database write of a run. -/
def attemptsAfter (a : Option Int) : List Update → List Int
  | [] => []
  | u :: us =>
    (upd u.remux_attempts a).getD 0 :: attemptsAfter (upd u.remux_attempts a) us

lemma mem_fetch_eligible (db : List Row) (lim : Nat) (r : Row)
    (hr : r ∈ fetchEligibleJobs db lim) : eligible r = true := by
  unfold fetchEligibleJobs at hr
  have h1 : r ∈ sortByCreated (db.filter eligible) := List.mem_of_mem_take hr
  have h2 : r ∈ db.filter eligible := (sortByCreated_perm _).mem_iff.mp h1
  exact (List.mem_filter.mp h2).2

lemma eligible_fields (r : Row) (h : eligible r = true) :
    r.status = some "completed" ∧ r.remux_status = some "pending"
    ∧ (∃ a, r.remux_attempts = some a ∧ a < 3)
    ∧ (∃ d, r.video_duration = some d ∧ 1 < d) := by
  unfold eligible at h
  simp only [Bool.and_eq_true, beq_iff_eq] at h
  obtain ⟨⟨⟨h1, h2⟩, h3⟩, h4⟩ := h
  refine ⟨h1, h2, ?_, ?_⟩
  · cases ha : r.remux_attempts with
    | none => rw [ha] at h3; cases h3
    | some a => rw [ha] at h3; exact ⟨a, rfl, of_decide_eq_true h3⟩
  · cases hd : r.video_duration with
    | none => rw [hd] at h4; cases h4
    | some d => rw [hd] at h4; exact ⟨d, rfl, of_decide_eq_true h4⟩

/-- C3 (amended): every run of an eligible job (fewer than 3 recorded
attempts) keeps `remuxAttempts` non-decreasing across its writes; whenever
any object-store I/O happens the run's first event is the claim write
(`processing`, `remuxAttempts = currentAttempts + 1`, attempt timestamp
merged); a `failed` write always sets the counter to exactly 3; and the
discovery query never selects a job whose counter reached 3 — though within
the attempt that raised the counter to 3 the job may still end `completed`
or `skipped` (see the counterexample). -/
theorem attempts_monotone (env : Env) (video : Row) (db : List Row)
    (h : video.remux_attempts.getD 0 < 3) :
    List.Chain (fun a b => a ≤ b) (video.remux_attempts.getD 0)
      (attemptsAfter video.remux_attempts (dbUpdates (processVideo env video)))
    ∧ (storeOps (processVideo env video) ≠ [] →
        ∃ rest, processVideo env video =
          Ev.dbWrite (claimUpdate (video.metadata.getD []) (attemptNumberOf video) env.now)
            :: rest)
    ∧ (claimUpdate (video.metadata.getD []) (attemptNumberOf video) env.now).remux_status
        = some "processing"
    ∧ (claimUpdate (video.metadata.getD []) (attemptNumberOf video) env.now).remux_attempts
        = some (attemptNumberOf video)
    ∧ Metadata.get
        (((claimUpdate (video.metadata.getD []) (attemptNumberOf video) env.now).metadata).getD
          []) "last_remux_attempt" = some (MVal.s env.now)
    ∧ (∀ u ∈ dbUpdates (processVideo env video),
        u.remux_status = some "failed" → u.remux_attempts = some 3)
    ∧ (∀ r ∈ fetchEligibleJobs db 5, r.remux_attempts.getD 0 < 3) := by
  refine ⟨?_, ?_, rfl, rfl, metaGet_append_of_found _ _ _ _ rfl, ?_, ?_⟩
  · rcases processVideo_updates env video with h1 | ⟨rest, heq, hrest⟩
    · rw [h1]
      simp only [attemptsAfter, skipUpdatePre, upd]
      exact List.Chain.cons le_rfl List.Chain.nil
    · rw [heq]
      rcases hrest with rfl | ⟨msg, rfl⟩ | ⟨d, rfl⟩ | ⟨iSz, oSz, d, rfl⟩
      · simp only [attemptsAfter, claimUpdate, upd, attemptNumberOf, Option.getD_some]
        refine List.Chain.cons ?_ List.Chain.nil
        omega
      · simp only [attemptsAfter, claimUpdate, markAsFailedUpdate, upd, attemptNumberOf,
          Option.getD_some]
        refine List.Chain.cons (by omega) (List.Chain.cons (by omega) List.Chain.nil)
      · simp only [attemptsAfter, claimUpdate, skipUpdateProbed, upd, attemptNumberOf,
          Option.getD_some]
        refine List.Chain.cons (by omega) (List.Chain.cons (by omega) List.Chain.nil)
      · simp only [attemptsAfter, claimUpdate, completedUpdate, upd, attemptNumberOf,
          Option.getD_some]
        refine List.Chain.cons (by omega) (List.Chain.cons (by omega) List.Chain.nil)
  · intro hso
    unfold processVideo at hso ⊢
    by_cases hps : preSkip video.video_duration = true
    · rw [if_pos hps] at hso
      exact absurd rfl hso
    · rw [Bool.not_eq_true] at hps
      rw [if_neg (by simp [hps])]
      exact ⟨_, rfl⟩
  · intro u hu hs
    rcases processVideo_updates env video with h1 | ⟨rest, heq, hrest⟩
    · rw [h1] at hu
      rcases List.mem_cons.mp hu with rfl | hu
      · simp [skipUpdatePre] at hs
      · simp at hu
    · rw [heq] at hu
      rcases List.mem_cons.mp hu with rfl | hu
      · simp [claimUpdate] at hs
      · rcases hrest with rfl | ⟨msg, rfl⟩ | ⟨d, rfl⟩ | ⟨iSz, oSz, d, rfl⟩
        · simp at hu
        · rcases List.mem_cons.mp hu with rfl | hu
          · rfl
          · simp at hu
        · rcases List.mem_cons.mp hu with rfl | hu
          · simp [skipUpdateProbed] at hs
          · simp at hu
        · rcases List.mem_cons.mp hu with rfl | hu
          · simp [completedUpdate] at hs
          · simp at hu
  · intro r hr
    obtain ⟨a, ha, halt⟩ := (eligible_fields r (mem_fetch_eligible db 5 r hr)).2.2.1
    rw [ha]
    simpa using halt

/-- Concrete all-success environment used by the concrete runs below. -/
def cEnvOK : Env :=
  { now := "T1", headResult := Except.ok (some 100), downloadResult := Except.ok ()
    inputStat := Except.ok 1000, probeExec := Except.ok (some 45)
    ffmpeg := { exitCode := 0, stdout := "", stderr := "", errMessage := "" }
    outputStat := Except.ok 900, uploadResult := Except.ok (), elapsedMs := 5 }

/-- An eligible job on its third attempt. -/
def cRow2 : Row :=
  { id := 7, status := some "completed", remux_status := some "pending"
    remux_attempts := some 2, video_url := "k.webm", video_duration := some 45
    metadata := some [] }

/-- C3 counterexample: on the third attempt the claim write sets
`remuxAttempts` to 3, and a later write of the same run still transitions
the job to `completed` — so after the counter reaches 3 the next transition
is not necessarily `failed`, refuting the claim's final clause. -/
theorem attempts_cap_counterexample :
    ∃ u1 u2, dbUpdates (processVideo cEnvOK cRow2) = [u1, u2]
      ∧ u1.remux_attempts = some 3
      ∧ u2.remux_status = some "completed"
      ∧ ¬ u2.remux_status = some "failed" := by
  refine ⟨_, _, rfl, rfl, rfl, by decide⟩

/-- C4 (amended): every status update overwrites the metadata column with
the bag captured at the start of `processVideo` extended by the update's own
keys: keys already stored when the run began keep their values through every
update (unless the update itself rebinds them), but keys merged by an
earlier update of the same run are not carried into later writes (see the
counterexample). -/
theorem metadata_writes_extend_initial (env : Env) (video : Row) :
    ∀ u ∈ dbUpdates (processVideo env video), ∀ m, u.metadata = some m →
      ∃ adds, m = (video.metadata.getD []) ++ adds
        ∧ ∀ k, (∀ p ∈ adds, p.1 ≠ k) →
            Metadata.get m k = Metadata.get (video.metadata.getD []) k := by
  intro u hu m hm
  rcases processVideo_updates env video with h1 | ⟨rest, heq, hrest⟩
  · rw [h1] at hu
    rcases List.mem_cons.mp hu with rfl | hu
    · simp only [skipUpdatePre] at hm
      injection hm with hm
      exact extend_witness _ _ _ hm.symm
    · simp at hu
  · rw [heq] at hu
    rcases List.mem_cons.mp hu with rfl | hu
    · simp only [claimUpdate] at hm
      injection hm with hm
      exact extend_witness _ _ _ hm.symm
    · rcases hrest with rfl | ⟨msg, rfl⟩ | ⟨d, rfl⟩ | ⟨iSz, oSz, d, rfl⟩
      · simp at hu
      · rcases List.mem_cons.mp hu with rfl | hu
        · simp only [markAsFailedUpdate] at hm
          injection hm with hm
          exact extend_witness _ _ _ hm.symm
        · simp at hu
      · rcases List.mem_cons.mp hu with rfl | hu
        · simp only [skipUpdateProbed] at hm
          injection hm with hm
          exact extend_witness _ _ _ hm.symm
        · simp at hu
      · rcases List.mem_cons.mp hu with rfl | hu
        · simp only [completedUpdate] at hm
          injection hm with hm
          exact extend_witness _ _ _ hm.symm
        · simp at hu

/-- An eligible first-attempt job with empty stored metadata. -/
def cRow0 : Row :=
  { id := 8, status := some "completed", remux_status := some "pending"
    remux_attempts := some 0, video_url := "k2.webm", video_duration := some 45
    metadata := some [] }

/-- C4 counterexample: after the claim write the stored metadata holds the
attempt timestamp `last_remux_attempt`, but the terminal `completed` write
of the same run rebuilds metadata from the bag captured at the start of the
run, erasing that key — so a key present immediately before an update is not
preserved by it, refuting the claim. -/
theorem metadata_merge_counterexample :
    Metadata.get
        ((applyEvents cRow0 ((processVideo cEnvOK cRow0).take 1)).metadata.getD [])
        "last_remux_attempt" = some (MVal.s "T1")
    ∧ Metadata.get ((applyEvents cRow0 (processVideo cEnvOK cRow0)).metadata.getD [])
        "last_remux_attempt" = none := by
  exact ⟨rfl, rfl⟩

/-- C5: the discovery query returns only jobs with upload `completed`, remux
`pending`, fewer than 3 attempts and recorded duration strictly greater
than 1 (unknown and zero recorded durations are excluded), at most 5 of
them, in ascending creation-time order — and exactly the eligible jobs
whenever at most 5 exist; a query error, like an empty result, makes the
cycle a no-op that writes to no job. -/
theorem fetch_eligible_spec (db : List Row) (e : String) (envOf : Row → Env) :
    (∀ r ∈ fetchEligibleJobs db 5,
        r.status = some "completed" ∧ r.remux_status = some "pending"
        ∧ (∃ a, r.remux_attempts = some a ∧ a < 3)
        ∧ (∃ d, r.video_duration = some d ∧ 1 < d))
    ∧ (fetchEligibleJobs db 5).length ≤ 5
    ∧ List.Pairwise (fun a b => a.created_at ≤ b.created_at) (fetchEligibleJobs db 5)
    ∧ ((db.filter eligible).length ≤ 5 →
        (fetchEligibleJobs db 5).Perm (db.filter eligible))
    ∧ processVideos (Except.error e) envOf = []
    ∧ processVideos (Except.ok []) envOf = [] := by
  refine ⟨?_, List.length_take_le 5 _, ?_, ?_, rfl, rfl⟩
  · intro r hr
    exact eligible_fields r (mem_fetch_eligible db 5 r hr)
  · exact List.Pairwise.sublist (List.take_sublist _ _) (sortByCreated_sorted _)
  · intro hlen
    unfold fetchEligibleJobs
    have hp := sortByCreated_perm (db.filter eligible)
    rw [List.take_of_length_le (by rw [hp.length_eq]; exact hlen)]
    exact hp

/-- C8: the dispatcher partitions the discovered list into consecutive
groups of at most 3, in list order (their concatenation is the original
list); every job is launched once and settles once with its own outcome, so
one rejection neither cancels nor skips its siblings; and all of a group's
settles precede the next group's launches, so no prefix of the schedule has
more than 3 launched-but-unsettled jobs. -/
theorem batch_dispatch_spec {α : Type} (jobs : List α) (f : α → Bool) :
    (chunks 3 jobs).flatten = jobs
    ∧ (∀ c ∈ chunks 3 jobs, c.length ≤ 3)
    ∧ startsOf (dispatchTrace 3 f jobs) = jobs
    ∧ settlesOf (dispatchTrace 3 f jobs) = jobs.map (fun j => (j, f j))
    ∧ ∀ p, p <+: dispatchTrace 3 f jobs → countStart p ≤ countSettle p + 3 := by
  refine ⟨chunks_flatten 3 jobs, chunks_length_le 3 (by omega) jobs,
    dispatchTrace_starts 3 f jobs, dispatchTrace_settles 3 f jobs, ?_⟩
  intro p hp
  exact dispatch_inflight_aux f 3 (chunks 3 jobs)
    (chunks_length_le 3 (by omega) jobs) p hp

/-! ## Witnesses: the claim theorems applied at concrete inputs -/

/-- A job whose recorded duration is exactly 1 second. -/
def cRowShort : Row :=
  { id := 9, status := some "completed", remux_status := some "pending"
    remux_attempts := some 1, video_url := "s.webm", video_duration := some 1
    metadata := some [] }

/-- C1 witness at a job with recorded duration 1s. -/
theorem shortDuration_skipped_witness :
    (applyEvents cRowShort (processVideo cEnvOK cRowShort)).remux_status = some "skipped" :=
  (shortDuration_skipped cEnvOK cRowShort 0 (Or.inl (by decide))).1

/-- Environment whose HEAD reports a zero-length object. -/
def cEnvAbsent : Env := { cEnvOK with headResult := Except.ok (some 0) }

/-- An eligible job already on its third attempt. -/
def cRowTwo : Row :=
  { id := 10, status := some "completed", remux_status := some "pending"
    remux_attempts := some 2, video_url := "t.webm", video_duration := some 45
    metadata := some [] }

/-- C2 witness: third attempt with the object absent ends failed at 3. -/
theorem failure_retry_cap_witness :
    (applyEvents cRowTwo (processVideo cEnvAbsent cRowTwo)).remux_status = some "failed"
    ∧ (applyEvents cRowTwo (processVideo cEnvAbsent cRowTwo)).remux_attempts = some 3 := by
  have h := (failure_retry_cap cEnvAbsent cRowTwo (by decide) (Or.inl (by decide))).1
    (by decide)
  exact ⟨h.1, h.2.1⟩

/-- A fresh eligible job for the monotonicity witness. -/
def cRowM : Row :=
  { id := 14, status := some "completed", remux_status := some "pending"
    remux_attempts := some 0, video_url := "m.webm", video_duration := some 45
    metadata := some [] }

/-- C3 witness: the attempt counter chain of a concrete successful run. -/
theorem attempts_monotone_witness :
    List.Chain (fun a b => a ≤ b) (cRowM.remux_attempts.getD 0)
      (attemptsAfter cRowM.remux_attempts (dbUpdates (processVideo cEnvOK cRowM))) :=
  (attempts_monotone cEnvOK cRowM [] (by decide)).1

/-- C4 witness: the claim write of a concrete run extends the captured bag. -/
theorem metadata_writes_extend_initial_witness :
    ∃ adds, [("last_remux_attempt", MVal.s "T1")] = (cRow0.metadata.getD []) ++ adds
      ∧ ∀ k, (∀ p ∈ adds, p.1 ≠ k) →
          Metadata.get [("last_remux_attempt", MVal.s "T1")] k
            = Metadata.get (cRow0.metadata.getD []) k :=
  metadata_writes_extend_initial cEnvOK cRow0
    (claimUpdate (cRow0.metadata.getD []) (attemptNumberOf cRow0) cEnvOK.now)
    (by decide) [("last_remux_attempt", MVal.s "T1")] rfl

/-- A one-row database for the discovery witness. -/
def cDb : List Row := [cRowM]

/-- C5 witness: with a single eligible row the query returns exactly it. -/
theorem fetch_eligible_spec_witness :
    (fetchEligibleJobs cDb 5).Perm (cDb.filter eligible) :=
  (fetch_eligible_spec cDb "query failed" (fun _ => cEnvOK)).2.2.2.1 (by decide)

/-- A genuinely failing ffmpeg outcome. -/
def cFFmpegFail : ExecOutcome :=
  { exitCode := 1, stdout := "boom", stderr := "", errMessage := "m" }

/-- C6 witness: a non-zero exit without the marker rejects with the
truncated diagnostic. -/
theorem executeFFmpeg_failure_criterion_witness :
    executeFFmpeg cFFmpegFail =
      Except.error ("FFmpeg failed: " ++ strTake (ffmpegErrorMessage cFFmpegFail) 500) :=
  (executeFFmpeg_failure_criterion cFFmpegFail).1.mpr (by decide)

/-- Environment whose remux output (150 B) exceeds its input (100 B). -/
def cEnvGrow : Env :=
  { cEnvOK with inputStat := Except.ok 100, outputStat := Except.ok 150 }

/-- An eligible job for the growing-output witness. -/
def cRowG : Row :=
  { id := 11, status := some "completed", remux_status := some "pending"
    remux_attempts := some 0, video_url := "g.webm", video_duration := some 45
    metadata := some [] }

/-- C7 witness: a run whose output grew still completes, with a negative
`size_saved`. -/
theorem larger_output_still_completed_witness :
    (applyEvents cRowG (processVideo cEnvGrow cRowG)).remux_status = some "completed"
    ∧ Metadata.get ((applyEvents cRowG (processVideo cEnvGrow cRowG)).metadata.getD [])
        "size_saved" = some (MVal.i (100 - 150)) := by
  have h := larger_output_still_completed cEnvGrow cRowG 100 150 (by decide) (by decide)
    rfl rfl (by decide) rfl rfl rfl (by decide)
  exact ⟨h.2.1, h.2.2.2.2.1⟩

/-- C8 witness: the full schedule of a 7-job discovery keeps at most 3 jobs
in flight. -/
theorem batch_dispatch_spec_witness :
    countStart (dispatchTrace 3 (fun j => j % 2 == 0) [1, 2, 3, 4, 5, 6, 7])
      ≤ countSettle (dispatchTrace 3 (fun j => j % 2 == 0) [1, 2, 3, 4, 5, 6, 7]) + 3 :=
  (batch_dispatch_spec [1, 2, 3, 4, 5, 6, 7] (fun j => j % 2 == 0)).2.2.2.2
    (dispatchTrace 3 (fun j => j % 2 == 0) [1, 2, 3, 4, 5, 6, 7]) List.prefix_rfl

/-- Environment whose ffprobe invocation fails. -/
def cEnvProbeFail : Env := { cEnvOK with probeExec := Except.error "probe boom" }

/-- A job with a zero (falsy) recorded duration. -/
def cRowZero : Row :=
  { id := 12, status := some "completed", remux_status := some "pending"
    remux_attempts := some 0, video_url := "z.webm", video_duration := some 0
    metadata := some [] }

/-- C9 witness: a failing probe yields 0 and the concrete run ends skipped. -/
theorem probe_failure_safe_witness :
    getVideoDuration cEnvProbeFail.probeExec = 0
    ∧ (applyEvents cRowZero (processVideo cEnvProbeFail cRowZero)).remux_status
        = some "skipped" := by
  have h := probe_failure_safe cEnvProbeFail cRowZero "probe boom" 1000 rfl (by decide)
    (by decide) rfl rfl
  exact ⟨h.1, h.2.1⟩

/-- A first-attempt job used against the zero-length object. -/
def cRowZ : Row :=
  { id := 13, status := some "completed", remux_status := some "pending"
    remux_attempts := some 0, video_url := "zl.webm", video_duration := some 45
    metadata := some [] }

/-- C10 witness: a 5-byte object counts as present, and a first attempt on a
zero-byte object leaves the row `processing`. -/
theorem checkR2File_content_length_witness :
    checkR2File (Except.ok (some 5)) = true
    ∧ (applyEvents cRowZ (processVideo cEnvAbsent cRowZ)).remux_status
        = some "processing" := by
  have h := checkR2File_content_length (Except.ok (some 5)) cEnvAbsent cRowZ rfl
    (by decide)
  exact ⟨h.1.mpr ⟨5, rfl, by decide⟩, h.2.2.2.2 (by decide)⟩

end VideoProcessor
